import Mathlib

/-!
Verification of the `intel/customlists` filter-list module: the
public-suffix-aware domain decomposition (`splitDomain`), the lookup
functions (`LookupDomain`, `LookupIP`, `LookupASN`, `LookupCountry`) and
the reload cycle (`checkAndUpdateFilterList`).

Strings are embedded as lists of characters (`Str`).  The external
public-suffix oracle (`golang.org/x/net/publicsuffix.PublicSuffix`) is a
parameter `ps : Str → Str` of the definitions that use it, and the four
filter sets are membership functions.
-/

namespace CustomLists

/-- Go strings, embedded as lists of characters. -/
abbrev Str := List Char

/-- Convenience conversion from a Lean string literal. -/
def str (s : String) : Str := s.data

/-- `strings.Trim(s, ".")`: remove leading and trailing `.` characters. -/
def trimDots (s : Str) : Str :=
  ((s.dropWhile (fun c => c = '.')).reverse.dropWhile (fun c => c = '.')).reverse

/-- `strings.FieldsFunc(s, r == '.')`: split on `.`, dropping empty fields. -/
def fieldsDots (s : Str) : List Str :=
  (s.splitOn '.').filter (fun p => p ≠ [])

/-- The body of `splitDomain` after the public-suffix lookup: `suffix` is
the result of `publicsuffix.PublicSuffix(domain)` on the already
dot-trimmed `domain` (module.go lines 175-195). -/
def splitDomainWith (suffix domain : Str) : List Str :=
  if suffix = domain then
    [domain]
  else
    let domainWithoutSuffix := trimDots (domain.take (domain.length - suffix.length))
    let splitted := fieldsDots domainWithoutSuffix
    (List.range splitted.length).map (fun idx =>
      let d := List.intercalate ['.'] (splitted.drop idx) ++ '.' :: suffix
      if d.getLast? ≠ some '.' then d ++ ['.'] else d)

/-- `splitDomain` (module.go lines 172-196), parameterised by the external
public-suffix oracle `ps`. -/
def splitDomain (ps : Str → Str) (domain : Str) : List Str :=
  splitDomainWith (ps (trimDots domain)) (trimDots domain)

/-- `LookupDomain` (module.go lines 133-152): `domainsFilterList` is the
membership function of the domain filter set. -/
def LookupDomain (domainsFilterList : Str → Bool) (ps : Str → Str)
    (fullDomain : Str) (filterSubdomains : Bool) : Bool × Str :=
  if filterSubdomains then
    match (splitDomain ps fullDomain).find? domainsFilterList with
    | some domain => (true, domain)
    | none => (false, [])
  else
    (domainsFilterList fullDomain, fullDomain)

example : splitDomain (fun _ => str "co.uk") (str "a.b.example.co.uk") =
    [str "a.b.example.co.uk.", str "b.example.co.uk.", str "example.co.uk."] := by
  decide

example : splitDomain (fun _ => str "co.uk") (str "co.uk") = [str "co.uk"] := by
  decide

example : LookupDomain (fun s => s == str "example.co.uk.") (fun _ => str "co.uk")
    (str "a.example.co.uk") true = (true, str "example.co.uk.") := by
  decide

example : LookupDomain (fun _ => false) (fun s => s) (str "a.example.co.uk") false =
    (false, str "a.example.co.uk") := by
  decide

/-- `LookupIP` (module.go lines 124-130): membership of the textual form of
the IP address in the IP filter set. -/
def LookupIP (ipAddressesFilterList : Str → Bool) (ip : Str) : Bool :=
  ipAddressesFilterList ip

/-- `LookupASN` (module.go lines 155-161): membership in the ASN set. -/
def LookupASN (autonomousSystemsFilterList : Nat → Bool) (number : Nat) : Bool :=
  autonomousSystemsFilterList number

/-- `LookupCountry` (module.go lines 164-170): membership in the country set. -/
def LookupCountry (countryCodesFilterList : Str → Bool) (countryCode : Str) : Bool :=
  countryCodesFilterList countryCode

/-- The four classified filter sets produced by one successful parse. -/
structure FourSets where
  ipAddressesFilterList : Str → Bool
  domainsFilterList : Str → Bool
  autonomousSystemsFilterList : Nat → Bool
  countryCodesFilterList : Str → Bool

/-- The package-level mutable state touched by `checkAndUpdateFilterList`:
the four filter sets, the recorded file path and modification time, and the
`parserTask` schedule (the time of the next periodic check). -/
structure CLState where
  ipAddressesFilterList : Str → Bool
  domainsFilterList : Str → Bool
  autonomousSystemsFilterList : Nat → Bool
  countryCodesFilterList : Str → Bool
  filterListFilePath : Str
  filterListFileModifiedTime : Nat
  nextCheck : Option Nat

/-- The environment one reload cycle observes: the configured file path
(`getFilePath()`), the current time, the result of `os.Stat` (`some mtime`
on success, `none` on error), and the result of `parseFile`.

`parseResult` is modelled from the spec: `parseFile` lives in a file of
this repository that is not under src/; per the spec a failing parse
leaves the four sets untouched and a successful parse produces four new
sets that replace the old ones, so it is modelled as
`Option FourSets` — `none` for a parse error, `some` for success. -/
structure CLEnv where
  filePath : Str
  now : Nat
  statResult : Option Nat
  parseResult : Option FourSets

/-- `checkAndUpdateFilterList` (module.go lines 93-121) as a state
transition.  The returned Bool records whether `parseFile` was invoked. -/
def checkAndUpdateFilterList (env : CLEnv) (s : CLState) : CLState × Bool :=
  if env.filePath = [] then
    (s, false)
  else
    let s1 : CLState := { s with nextCheck := some (env.now + 60) }
    let modifiedTime := env.statResult.getD env.now
    if s1.filterListFilePath ≠ env.filePath ∨
        s1.filterListFileModifiedTime ≠ modifiedTime then
      match env.parseResult with
      | none => (s1, true)
      | some ns =>
          ({ s1 with
              ipAddressesFilterList := ns.ipAddressesFilterList
              domainsFilterList := ns.domainsFilterList
              autonomousSystemsFilterList := ns.autonomousSystemsFilterList
              countryCodesFilterList := ns.countryCodesFilterList
              filterListFileModifiedTime := modifiedTime
              filterListFilePath := env.filePath }, true)
    else
      (s1, false)

/-! ### Helper lemmas -/

theorem splitDomainWith_bare (suffix domain : Str) (h : suffix = domain) :
    splitDomainWith suffix domain = [domain] := by
  simp [splitDomainWith, h]

theorem find?_beq_self {α : Type} [BEq α] [LawfulBEq α] {l : List α} {r : α}
    (h : r ∈ l) : l.find? (fun x => x == r) = some r := by
  induction l with
  | nil => cases h
  | cons a t ih =>
    rw [List.find?_cons]
    by_cases hb : (a == r) = true
    · simp [hb, eq_of_beq hb]
    · have hbf : (a == r) = false := by simpa using hb
      simp only [hbf]
      apply ih
      cases h with
      | head => exact absurd (by simp) hb
      | tail _ hmem => exact hmem

/-! ### Claim theorems -/

/-- C1 counterexample: the claim says `LookupDomain(d, false)` on a miss
returns `(false, "")`, but with an empty domain set and
`d = "a.example.co.uk"` the code returns `(false, d)`. -/
theorem lookupDomain_exact_miss_counterexample :
    LookupDomain (fun _ => false) (fun s => s) (str "a.example.co.uk") false ≠
      (false, ([] : Str)) := by
  decide

/-- C1 (amended): for every domain `d` not in the domain filter set,
`LookupDomain(d, false)` returns `(false, d)` — the boolean is false and
the second component is the input domain itself, not the empty string. -/
theorem lookupDomain_exact_miss (dset : Str → Bool) (ps : Str → Str) (d : Str)
    (h : dset d = false) : LookupDomain dset ps d false = (false, d) := by
  simp [LookupDomain, h]

/-- C1 witness: the amended theorem at the empty set and `"a.example.co.uk"`. -/
theorem lookupDomain_exact_miss_witness :
    (fun _ : Str => false) (str "a.example.co.uk") = false ∧
    LookupDomain (fun _ => false) (fun s => s) (str "a.example.co.uk") false =
      (false, str "a.example.co.uk") :=
  ⟨rfl, lookupDomain_exact_miss _ _ _ rfl⟩

/-- C2: for the input `"a.b.example.co.uk"`, whose public suffix is
`"co.uk"`, `splitDomain` returns exactly
`["a.b.example.co.uk.", "b.example.co.uk.", "example.co.uk."]` in that
order, each candidate with a single trailing dot. -/
theorem splitDomain_hierarchy (ps : Str → Str)
    (h : ps (str "a.b.example.co.uk") = str "co.uk") :
    splitDomain ps (str "a.b.example.co.uk") =
      [str "a.b.example.co.uk.", str "b.example.co.uk.", str "example.co.uk."] := by
  have ht : trimDots (str "a.b.example.co.uk") = str "a.b.example.co.uk" := by decide
  unfold splitDomain
  rw [ht, h]
  decide

/-- C2 witness: the theorem at the constant suffix oracle `"co.uk"`. -/
theorem splitDomain_hierarchy_witness :
    (fun _ : Str => str "co.uk") (str "a.b.example.co.uk") = str "co.uk" ∧
    splitDomain (fun _ => str "co.uk") (str "a.b.example.co.uk") =
      [str "a.b.example.co.uk.", str "b.example.co.uk.", str "example.co.uk."] :=
  ⟨rfl, splitDomain_hierarchy _ rfl⟩

/-- C3: if `root` is one of the candidates `splitDomain` produces for the
queried name (e.g. the registrable root `"example.co.uk."` for
`"a.example.co.uk"`), then `LookupDomain` with `filterSubdomains = true`
returns true for any set containing `root`, and when the set contains
exactly `root` it returns `(true, root)` itself. -/
theorem lookupDomain_subdomain_root (dset : Str → Bool) (ps : Str → Str)
    (d root : Str) (hmem : root ∈ splitDomain ps d) (hroot : dset root = true) :
    (LookupDomain dset ps d true).1 = true ∧
    LookupDomain (fun s => s == root) ps d true = (true, root) := by
  constructor
  · have hsome : ((splitDomain ps d).find? dset).isSome := by
      rw [List.find?_isSome]
      exact ⟨root, hmem, hroot⟩
    obtain ⟨m, hm⟩ := Option.isSome_iff_exists.mp hsome
    simp [LookupDomain, hm]
  · simp [LookupDomain, find?_beq_self hmem]

/-- C3 witness: domain set containing exactly `"example.co.uk."`, query
`"a.example.co.uk"` with subdomain matching on. -/
theorem lookupDomain_subdomain_root_witness :
    str "example.co.uk." ∈ splitDomain (fun _ => str "co.uk") (str "a.example.co.uk") ∧
    (fun s : Str => s == str "example.co.uk.") (str "example.co.uk.") = true ∧
    ((LookupDomain (fun s => s == str "example.co.uk.") (fun _ => str "co.uk")
        (str "a.example.co.uk") true).1 = true ∧
      LookupDomain (fun s => s == str "example.co.uk.") (fun _ => str "co.uk")
        (str "a.example.co.uk") true = (true, str "example.co.uk.")) :=
  ⟨by decide, by decide,
    lookupDomain_subdomain_root _ _ _ _ (by decide) (by decide)⟩

/-- C4: for every input whose dot-trimmed form equals its own public
suffix, `splitDomain` returns exactly the one-element sequence containing
the trimmed input, with no trailing dot appended. -/
theorem splitDomain_bareSuffix (ps : Str → Str) (d : Str)
    (h : ps (trimDots d) = trimDots d) :
    splitDomain ps d = [trimDots d] := by
  unfold splitDomain
  rw [h]
  exact splitDomainWith_bare _ _ rfl

/-- C4 witness: `splitDomain("co.uk")` with suffix oracle `"co.uk"` yields
exactly `["co.uk"]`. -/
theorem splitDomain_bareSuffix_witness :
    (fun _ : Str => str "co.uk") (trimDots (str "co.uk")) = trimDots (str "co.uk") ∧
    splitDomain (fun _ => str "co.uk") (str "co.uk") = [str "co.uk"] := by
  refine ⟨by decide, ?_⟩
  have h := splitDomain_bareSuffix (fun _ => str "co.uk") (str "co.uk") (by decide)
  rw [h]
  decide

theorem splitDomainWith_mem_dot (suffix domain : Str) (hb : suffix ≠ domain)
    (hne : suffix ≠ []) (hdot : suffix.getLast? ≠ some '.') :
    ∀ c ∈ splitDomainWith suffix domain,
      c.getLast? = some '.' ∧ c.dropLast.getLast? ≠ some '.' := by
  intro c hc
  unfold splitDomainWith at hc
  rw [if_neg hb] at hc
  simp only [List.mem_map, List.mem_range] at hc
  obtain ⟨idx, _, hceq⟩ := hc
  set splitted := fieldsDots (trimDots (domain.take (domain.length - suffix.length))) with hs
  set base := List.intercalate ['.'] (splitted.drop idx) ++ '.' :: suffix with hbase
  have hbl : base.getLast? = suffix.getLast? := by
    rw [hbase]
    rw [List.getLast?_append_of_ne_nil _ (by simp : ('.' :: suffix) ≠ [])]
    show (['.'] ++ suffix).getLast? = suffix.getLast?
    exact List.getLast?_append_of_ne_nil _ hne
  have hcond : base.getLast? ≠ some '.' := by rw [hbl]; exact hdot
  have hcb : c = base ++ ['.'] := by
    rw [← hceq]
    simp only [if_pos hcond]
  refine ⟨?_, ?_⟩
  · rw [hcb, List.getLast?_concat]
  · rw [hcb, List.dropLast_concat]
    exact hcond

/-- C10: whenever the dot-trimmed input differs from its public suffix
(which, being computed from a dot-trimmed name, is nonempty and has no
trailing dot), every candidate `splitDomain` returns ends in exactly one
trailing `'.'` — its last character is `'.'` and the one before is not —
so `LookupDomain` with `filterSubdomains = true` can only match entries
ending in a dot; on the bare-public-suffix path the single candidate is
returned without an appended dot. -/
theorem splitDomain_trailing_dot (ps : Str → Str) (d : Str)
    (hne : ps (trimDots d) ≠ [])
    (hdot : (ps (trimDots d)).getLast? ≠ some '.') :
    (ps (trimDots d) ≠ trimDots d →
      (∀ c ∈ splitDomain ps d, c.getLast? = some '.' ∧ c.dropLast.getLast? ≠ some '.') ∧
      (∀ (dset : Str → Bool) (m : Str),
        LookupDomain dset ps d true = (true, m) → m.getLast? = some '.')) ∧
    (ps (trimDots d) = trimDots d → splitDomain ps d = [trimDots d]) := by
  constructor
  · intro hbare
    have hmemdot := splitDomainWith_mem_dot (ps (trimDots d)) (trimDots d) hbare hne hdot
    constructor
    · intro c hc
      exact hmemdot c hc
    · intro dset m hm
      unfold LookupDomain at hm
      rw [if_pos rfl] at hm
      cases hfind : (splitDomain ps d).find? dset with
      | none => rw [hfind] at hm; simp at hm
      | some x =>
        rw [hfind] at hm
        have hxm : x = m := (Prod.mk.injEq _ _ _ _ ▸ hm).2
        have hmem : m ∈ splitDomain ps d := hxm ▸ List.mem_of_find?_eq_some hfind
        exact (hmemdot m hmem).1
  · intro hbare
    unfold splitDomain
    rw [hbare]
    exact splitDomainWith_bare _ _ rfl

/-- C10 witness: suffix oracle `"co.uk"`, input `"a.example.co.uk"`. -/
theorem splitDomain_trailing_dot_witness :
    ((fun _ : Str => str "co.uk") (trimDots (str "a.example.co.uk")) ≠ [] ∧
      ((fun _ : Str => str "co.uk") (trimDots (str "a.example.co.uk"))).getLast? ≠ some '.') ∧
    (((fun _ : Str => str "co.uk") (trimDots (str "a.example.co.uk")) ≠
        trimDots (str "a.example.co.uk") →
      (∀ c ∈ splitDomain (fun _ => str "co.uk") (str "a.example.co.uk"),
        c.getLast? = some '.' ∧ c.dropLast.getLast? ≠ some '.') ∧
      (∀ (dset : Str → Bool) (m : Str),
        LookupDomain dset (fun _ => str "co.uk") (str "a.example.co.uk") true = (true, m) →
          m.getLast? = some '.')) ∧
    ((fun _ : Str => str "co.uk") (trimDots (str "a.example.co.uk")) =
        trimDots (str "a.example.co.uk") →
      splitDomain (fun _ => str "co.uk") (str "a.example.co.uk") =
        [trimDots (str "a.example.co.uk")])) :=
  ⟨⟨by decide, by decide⟩,
    splitDomain_trailing_dot (fun _ => str "co.uk") (str "a.example.co.uk")
      (by decide) (by decide)⟩

/-- The four sets, the recorded path and the recorded modification time of
`r` agree with those of `s`. -/
def sameSetsPathTime (r s : CLState) : Prop :=
  r.ipAddressesFilterList = s.ipAddressesFilterList ∧
  r.domainsFilterList = s.domainsFilterList ∧
  r.autonomousSystemsFilterList = s.autonomousSystemsFilterList ∧
  r.countryCodesFilterList = s.countryCodesFilterList ∧
  r.filterListFilePath = s.filterListFilePath ∧
  r.filterListFileModifiedTime = s.filterListFileModifiedTime

/-- Every lookup gives the same answer on `r` as on `s`. -/
def sameLookups (r s : CLState) : Prop :=
  (∀ ps fd fs, LookupDomain r.domainsFilterList ps fd fs =
      LookupDomain s.domainsFilterList ps fd fs) ∧
  (∀ ip, LookupIP r.ipAddressesFilterList ip = LookupIP s.ipAddressesFilterList ip) ∧
  (∀ n, LookupASN r.autonomousSystemsFilterList n =
      LookupASN s.autonomousSystemsFilterList n) ∧
  (∀ cc, LookupCountry r.countryCodesFilterList cc =
      LookupCountry s.countryCodesFilterList cc)

theorem checkAndUpdate_parseFail_cases (env : CLEnv) (s : CLState)
    (hparse : env.parseResult = none) :
    (checkAndUpdateFilterList env s).1 = s ∨
    (checkAndUpdateFilterList env s).1 = { s with nextCheck := some (env.now + 60) } := by
  unfold checkAndUpdateFilterList
  by_cases h0 : env.filePath = []
  · rw [if_pos h0]; left; rfl
  · rw [if_neg h0, hparse]
    right
    dsimp only
    split <;> rfl

/-- C5: if the parse fails during a cycle that attempts it, the cycle ends
with the four filter sets, the recorded path and the recorded modification
time exactly as before, so every lookup result is unchanged. -/
theorem checkAndUpdate_parseFail_frame (env : CLEnv) (s : CLState)
    (hparse : env.parseResult = none)
    (_hattempt : (checkAndUpdateFilterList env s).2 = true) :
    sameSetsPathTime (checkAndUpdateFilterList env s).1 s ∧
    sameLookups (checkAndUpdateFilterList env s).1 s := by
  have hframe : sameSetsPathTime (checkAndUpdateFilterList env s).1 s := by
    rcases checkAndUpdate_parseFail_cases env s hparse with h | h <;> rw [h] <;>
      exact ⟨rfl, rfl, rfl, rfl, rfl, rfl⟩
  refine ⟨hframe, ?_, ?_, ?_, ?_⟩
  · intro ps fd fs; rw [hframe.2.1]
  · intro ip; rw [show (checkAndUpdateFilterList env s).1.ipAddressesFilterList =
      s.ipAddressesFilterList from hframe.1]
  · intro n; rw [show (checkAndUpdateFilterList env s).1.autonomousSystemsFilterList =
      s.autonomousSystemsFilterList from hframe.2.2.1]
  · intro cc; rw [show (checkAndUpdateFilterList env s).1.countryCodesFilterList =
      s.countryCodesFilterList from hframe.2.2.2.1]

/-- A sample pre-loaded state for the reload-cycle witnesses. -/
def sampleState : CLState :=
  ⟨fun _ => false, fun s => s == str "example.co.uk.", fun _ => false, fun _ => false,
    str "old.txt", 5, none⟩

/-- C5 witness: configured path `"list.txt"` differs from the recorded one,
stat succeeds with mtime 9, parse fails. -/
theorem checkAndUpdate_parseFail_frame_witness :
    ((⟨str "list.txt", 100, some 9, none⟩ : CLEnv).parseResult = none ∧
      (checkAndUpdateFilterList ⟨str "list.txt", 100, some 9, none⟩ sampleState).2 = true) ∧
    (sameSetsPathTime
        (checkAndUpdateFilterList ⟨str "list.txt", 100, some 9, none⟩ sampleState).1
        sampleState ∧
      sameLookups
        (checkAndUpdateFilterList ⟨str "list.txt", 100, some 9, none⟩ sampleState).1
        sampleState) :=
  ⟨⟨rfl, by decide⟩, checkAndUpdate_parseFail_frame _ _ rfl (by decide)⟩

/-- C6: when the configured path equals the recorded one and stat succeeds
with the recorded modification time, the cycle performs no parse and only
re-arms the next check; a second identical invocation is likewise a no-op
producing the very same state. -/
theorem checkAndUpdate_noop (env : CLEnv) (s : CLState)
    (hpath : env.filePath = s.filterListFilePath) (hnz : env.filePath ≠ [])
    (hstat : env.statResult = some s.filterListFileModifiedTime) :
    checkAndUpdateFilterList env s = ({ s with nextCheck := some (env.now + 60) }, false) ∧
    checkAndUpdateFilterList env { s with nextCheck := some (env.now + 60) } =
      ({ s with nextCheck := some (env.now + 60) }, false) := by
  constructor <;>
    · unfold checkAndUpdateFilterList
      rw [if_neg hnz, hstat]
      dsimp only
      rw [if_neg]
      simp [hpath]

/-- C6 witness: path `"old.txt"` with recorded mtime 5, twice over. -/
theorem checkAndUpdate_noop_witness :
    ((⟨str "old.txt", 100, some 5, none⟩ : CLEnv).filePath =
        sampleState.filterListFilePath ∧
      (⟨str "old.txt", 100, some 5, none⟩ : CLEnv).filePath ≠ [] ∧
      (⟨str "old.txt", 100, some 5, none⟩ : CLEnv).statResult =
        some sampleState.filterListFileModifiedTime) ∧
    (checkAndUpdateFilterList ⟨str "old.txt", 100, some 5, none⟩ sampleState =
        ({ sampleState with nextCheck := some (100 + 60) }, false) ∧
      checkAndUpdateFilterList ⟨str "old.txt", 100, some 5, none⟩
          { sampleState with nextCheck := some (100 + 60) } =
        ({ sampleState with nextCheck := some (100 + 60) }, false)) :=
  ⟨⟨rfl, by decide, rfl⟩, checkAndUpdate_noop _ _ rfl (by decide) rfl⟩

/-- C7: the next periodic check is re-armed exactly when the configured
path is non-empty — an empty path makes the whole cycle a no-op (no parse,
no state change, no rescheduling), while a non-empty path re-arms the
check regardless of whether stat or parse succeed. -/
theorem checkAndUpdate_schedule (env : CLEnv) (s : CLState) :
    (env.filePath = [] → checkAndUpdateFilterList env s = (s, false)) ∧
    (env.filePath ≠ [] →
      (checkAndUpdateFilterList env s).1.nextCheck = some (env.now + 60)) := by
  constructor
  · intro h
    unfold checkAndUpdateFilterList
    rw [if_pos h]
  · intro h
    unfold checkAndUpdateFilterList
    rw [if_neg h]
    dsimp only
    split
    · cases env.parseResult <;> rfl
    · rfl

/-- C7 witness: an empty configured path versus the path `"f"`, with a
failing parse in the second case. -/
theorem checkAndUpdate_schedule_witness :
    (checkAndUpdateFilterList ⟨[], 3, none, none⟩ sampleState = (sampleState, false)) ∧
    ((checkAndUpdateFilterList ⟨str "f", 7, none, none⟩ sampleState).1.nextCheck =
      some (7 + 60)) :=
  ⟨(checkAndUpdate_schedule ⟨[], 3, none, none⟩ sampleState).1 rfl,
    (checkAndUpdate_schedule ⟨str "f", 7, none, none⟩ sampleState).2 (by decide)⟩

/-- C8: with a non-empty path and a failing stat, the cycle uses the
current time as the modification time: if it differs from the recorded one
(or the path changed) a parse is attempted, and a successful parse records
`now` as the new modification time. -/
theorem checkAndUpdate_statFail (env : CLEnv) (s : CLState)
    (hnz : env.filePath ≠ []) (hstat : env.statResult = none)
    (hdiff : s.filterListFilePath ≠ env.filePath ∨
      s.filterListFileModifiedTime ≠ env.now) :
    (checkAndUpdateFilterList env s).2 = true ∧
    (∀ ns, env.parseResult = some ns →
      (checkAndUpdateFilterList env s).1.filterListFileModifiedTime = env.now) := by
  unfold checkAndUpdateFilterList
  rw [if_neg hnz, hstat]
  dsimp only
  rw [if_pos (by simpa using hdiff)]
  cases hp : env.parseResult with
  | none =>
    refine ⟨rfl, fun ns hns => ?_⟩
    cases hns
  | some ns => exact ⟨rfl, fun ns hns => rfl⟩

/-- C8 witness: recorded path `"old.txt"`, configured path `"list.txt"`,
stat failing, parse succeeding at time 42. -/
theorem checkAndUpdate_statFail_witness :
    ((⟨str "list.txt", 42, none, some ⟨fun _ => false, fun _ => false,
          fun _ => false, fun _ => false⟩⟩ : CLEnv).filePath ≠ [] ∧
      (⟨str "list.txt", 42, none, some ⟨fun _ => false, fun _ => false,
          fun _ => false, fun _ => false⟩⟩ : CLEnv).statResult = none ∧
      (sampleState.filterListFilePath ≠
          (⟨str "list.txt", 42, none, some ⟨fun _ => false, fun _ => false,
            fun _ => false, fun _ => false⟩⟩ : CLEnv).filePath ∨
        sampleState.filterListFileModifiedTime ≠ 42)) ∧
    ((checkAndUpdateFilterList ⟨str "list.txt", 42, none, some ⟨fun _ => false,
        fun _ => false, fun _ => false, fun _ => false⟩⟩ sampleState).2 = true ∧
      (∀ ns, (⟨str "list.txt", 42, none, some ⟨fun _ => false, fun _ => false,
          fun _ => false, fun _ => false⟩⟩ : CLEnv).parseResult = some ns →
        (checkAndUpdateFilterList ⟨str "list.txt", 42, none, some ⟨fun _ => false,
          fun _ => false, fun _ => false, fun _ => false⟩⟩ sampleState).1.filterListFileModifiedTime = 42)) :=
  ⟨⟨by decide, rfl, by left; decide⟩,
    checkAndUpdate_statFail _ _ (by decide) rfl (by left; decide)⟩

end CustomLists
